import Mathlib

/-!
Verification development for the quiz-authoring backend (Express + Mongo).

We shallowly embed the two core subsystems named by the spec — the
AI-response normalization pipeline (`parseJsonLenient`, the 422 guard of the
parse endpoints, and the per-question hint pass) and the attempt-merge engine
of `POST /api/attempts` — plus the quiz allow-list check of
`GET /api/quizzes/:id` and the chat upsert of `POST /api/chats`.

JavaScript values arriving from `express.json()` bodies are modelled by the
`Json` inductive below (JSON has no `undefined`; an absent key is modelled by
`Option.none` at the lookup site).  JavaScript objects are modelled as
association lists in insertion order with unique keys; `objSet` mirrors
property assignment (in-place update of an existing key, append of a new
one).  The platform built-in `JSON.parse` is not repository code and is kept
abstract as a parameter `p : String → Option Json` (`none` models a thrown
`SyntaxError`); every string transformation around it is translated
concretely from the source.  `Date.now()` / `new Date()` are modelled by an
explicit clock parameter.  JS strings are UTF-16; we model them with Lean
`String` (code points), which only diverges on astral-plane characters, none
of which the claims depend on.
-/

/-- Model of a JavaScript value produced by `JSON.parse` / `express.json()`. -/
inductive Json where
  | null
  | bool (b : Bool)
  | num (n : Int)
  | str (s : String)
  | arr (elems : List Json)
  | obj (fields : List (String × Json))

/-- JS truthiness of a JSON-representable value: `null`, `false`, `0` and the
empty string are falsy; arrays and objects are always truthy. -/
def jsTruthy : Json → Bool
  | .null => false
  | .bool b => b
  | .num n => n != 0
  | .str s => s != ""
  | .arr _ => true
  | .obj _ => true

/-- Whether `typeof v === 'object'` in JS: true for `null`, arrays and plain
objects; false for booleans, numbers and strings. -/
def jsTypeofObject : Json → Bool
  | .null => true
  | .arr _ => true
  | .obj _ => true
  | _ => false

/-- The character set of the JS `\s` class / `String.prototype.trim`
(ASCII whitespace plus the Unicode space separators, NBSP, BOM and the line
separators). -/
def jsIsSpace (c : Char) : Bool :=
  c = ' ' || c = '\t' || c = '\n' || c = '\r' ||
  c.toNat = 11 || c.toNat = 12 || c.toNat = 160 || c.toNat = 0x1680 ||
  (0x2000 ≤ c.toNat && c.toNat ≤ 0x200A) ||
  c.toNat = 0x2028 || c.toNat = 0x2029 || c.toNat = 0x202F ||
  c.toNat = 0x205F || c.toNat = 0x3000 || c.toNat = 0xFEFF

/-- `s.trim() === ''` in JS: every character is whitespace. -/
def jsTrimEmpty (s : String) : Bool := s.data.all jsIsSpace

/-- JS `s.trim()`: drop leading and trailing whitespace. -/
def jsTrim (s : String) : String :=
  String.mk (((s.data.dropWhile jsIsSpace).reverse.dropWhile jsIsSpace).reverse)

/-- Lookup of a key in a JS object modelled as an association list
(first binding wins; real JS objects have unique keys). -/
def jsLookup (k : String) : List (String × Json) → Option Json
  | [] => none
  | (k', v) :: rest => if k' = k then some v else jsLookup k rest

/-- JS property assignment `m[k] = v` on a plain object: update the existing
binding in place, or append a new one (JS string keys keep insertion order). -/
def objSet : List (String × Json) → String → Json → List (String × Json)
  | [], k, v => [(k, v)]
  | (k', v') :: rest, k, v =>
      if k' = k then (k', v) :: rest else (k', v') :: objSet rest k v

/-- The key list of a modelled JS object. -/
def keysOf (m : List (String × Json)) : List String := m.map Prod.fst

/-- One step of the `POST /api/attempts` merge loops: apply one incoming
`(key, value)` entry to the accumulating mapping, skipping it when the
`skip` predicate holds (source lines 378-389 of the server file). -/
def applyKV (skip : String × Json → Bool) (m : List (String × Json))
    (kv : String × Json) : List (String × Json) :=
  if skip kv then m else objSet m kv.1 kv.2

/-- `Object.keys(incoming).forEach` merge loop: fold the incoming entries
over a copy of the existing mapping. -/
def mergeMap (skip : String × Json → Bool)
    (existing incoming : List (String × Json)) : List (String × Json) :=
  incoming.foldl (applyKV skip) existing

/-- The skip rule of the answers loop:
`if (v === null) return; if (typeof v === 'string' && v.trim() === '') return;`. -/
def skipAnswer : Json → Bool
  | .null => true
  | .str s => jsTrimEmpty s
  | _ => false

/-- The skip rule of the progress loop: `if (v === null) return;`. -/
def skipProgress : Json → Bool
  | .null => true
  | _ => false

/-- The answers merge of `POST /api/attempts`. -/
def mergeAnswers (existing incoming : List (String × Json)) :
    List (String × Json) :=
  mergeMap (fun kv => skipAnswer kv.2) existing incoming

/-- The progress merge of `POST /api/attempts`. -/
def mergeProgress (existing incoming : List (String × Json)) :
    List (String × Json) :=
  mergeMap (fun kv => skipProgress kv.2) existing incoming

/-- The question-key pattern `/^q\d+$/`: a literal `q` followed by one or
more ASCII digits. -/
def isQuestionKey (k : String) : Bool :=
  match k.data with
  | 'q' :: rest => !rest.isEmpty && rest.all Char.isDigit
  | _ => false

/-- `Object.keys(v)` of a JS value: the own enumerable keys with their
values.  For arrays these are the index strings.  (JS additionally fronts
integer-like object keys; the claims never depend on intra-object key order,
only on the nested-then-top-level fold order, which is preserved.) -/
def jsEntries : Json → List (String × Json)
  | .obj fields => fields
  | .arr elems => elems.enum.map (fun p => (toString p.1, p.2))
  | _ => []

/-- The `incomingAnswers` collection of `POST /api/attempts` (source lines
362-368): start from `{}`, copy the nested `answers` mapping when it is a
truthy `typeof 'object'` value, then overlay every top-level key matching
`/^q\d+$/`. -/
def collectIncomingAnswers (body : List (String × Json)) :
    List (String × Json) :=
  let base : List (String × Json) :=
    match jsLookup "answers" body with
    | some v => if jsTruthy v && jsTypeofObject v then jsEntries v else []
    | none => []
  let withNested := mergeMap (fun _ => false) [] base
  mergeMap (fun kv => !isQuestionKey kv.1) withNested body

/-- The `incomingProgress` selection of `POST /api/attempts` (line 370). -/
def collectIncomingProgress (body : List (String × Json)) :
    List (String × Json) :=
  match jsLookup "progress" body with
  | some v => if jsTruthy v && jsTypeofObject v then jsEntries v else []
  | none => []

/-- The attempt document built and upserted by `POST /api/attempts`
(line 390).  `submittedAt : Nat` models the `new Date()` clock reading. -/
structure AttemptDoc where
  quizId : Option Json
  email : Option Json
  answers : List (String × Json)
  progress : List (String × Json)
  score : Option Json
  totalQuestions : Option Json
  submitted : Option Json
  submittedAt : Nat

/-- The full merge performed by `POST /api/attempts` (source lines 358-391):
collect incoming answers and progress from the body, merge them onto the
existing record (empty mappings when there is no prior record), and build
the upserted document; `score`, `totalQuestions` and `submitted` are copied
from the body and `submittedAt` is the current clock value `now`. -/
def postAttempt (existing : Option AttemptDoc) (body : List (String × Json))
    (now : Nat) : AttemptDoc :=
  let incomingAnswers := collectIncomingAnswers body
  let incomingProgress := collectIncomingProgress body
  let exA := match existing with | some e => e.answers | none => []
  let exP := match existing with | some e => e.progress | none => []
  { quizId := jsLookup "quizId" body
    email := jsLookup "email" body
    answers := mergeAnswers exA incomingAnswers
    progress := mergeProgress exP incomingProgress
    score := jsLookup "score" body
    totalQuestions := jsLookup "totalQuestions" body
    submitted := jsLookup "submitted" body
    submittedAt := now }

/-- The spec's notion of a non-empty stored value: not `null` and not a
string of only whitespace. -/
def jsonNonEmpty : Json → Bool
  | .null => false
  | .str s => !jsTrimEmpty s
  | _ => true

/-! ### Association-list lemmas for the merge engine -/

/-- The value of the last non-skipped entry for key `k` in an incoming entry
list (later entries override earlier ones, as in the JS `forEach` loops). -/
def lastWrite (skip : String × Json → Bool) :
    List (String × Json) → String → Option Json
  | [], _ => none
  | kv :: rest, k =>
    match lastWrite skip rest k with
    | some v => some v
    | none => if kv.1 = k then (if skip kv then none else some kv.2) else none

theorem jsLookup_objSet (m : List (String × Json)) (k k' : String) (v : Json) :
    jsLookup k' (objSet m k v) = if k = k' then some v else jsLookup k' m := by
  induction m with
  | nil => simp [objSet, jsLookup]
  | cons hd tl ih =>
    obtain ⟨k0, v0⟩ := hd
    by_cases h : k0 = k
    · subst h
      by_cases h2 : k0 = k' <;> simp [objSet, jsLookup, h2]
    · by_cases h2 : k0 = k'
      · subst h2
        have hkk : k ≠ k0 := fun he => h he.symm
        simp [objSet, jsLookup, h, hkk]
      · simp [objSet, jsLookup, h, h2, ih]

theorem jsLookup_mergeMap (skip : String × Json → Bool)
    (l : List (String × Json)) (m : List (String × Json)) (k : String) :
    jsLookup k (mergeMap skip m l) =
      match lastWrite skip l k with
      | some v => some v
      | none => jsLookup k m := by
  induction l generalizing m with
  | nil => simp [mergeMap, lastWrite]
  | cons kv rest ih =>
    have hstep : mergeMap skip m (kv :: rest) =
        mergeMap skip (applyKV skip m kv) rest := rfl
    rw [hstep, ih]
    cases hlw : lastWrite skip rest k with
    | some v => simp [lastWrite, hlw]
    | none =>
      simp only [lastWrite, hlw]
      cases hsk : skip kv with
      | true => simp [applyKV, hsk]
      | false =>
        by_cases hk : kv.1 = k
        · simp [applyKV, hsk, jsLookup_objSet, hk]
        · have hk' : k ≠ kv.1 := fun he => hk he.symm
          simp [applyKV, hsk, jsLookup_objSet, hk, hk']

theorem lastWrite_some (skip : String × Json → Bool)
    (l : List (String × Json)) (k : String) (w : Json)
    (h : lastWrite skip l k = some w) :
    ∃ kv ∈ l, kv.1 = k ∧ skip kv = false ∧ kv.2 = w := by
  induction l with
  | nil => simp [lastWrite] at h
  | cons kv rest ih =>
    rw [lastWrite] at h
    cases hlw : lastWrite skip rest k with
    | some v =>
      rw [hlw] at h
      obtain ⟨kv', hmem, hkey, hskip, hval⟩ := ih (hlw.trans (by injection h with h; rw [h]))
      exact ⟨kv', List.mem_cons_of_mem _ hmem, hkey, hskip, hval⟩
    | none =>
      rw [hlw] at h
      by_cases hk : kv.1 = k
      · rw [if_pos hk] at h
        cases hsk : skip kv with
        | true => rw [if_pos hsk] at h; exact absurd h (by simp)
        | false =>
          rw [if_neg (by simp [hsk])] at h
          injection h with h
          exact ⟨kv, List.mem_cons_self _ _, hk, hsk, h⟩
      · rw [if_neg hk] at h
        exact absurd h (by simp)

theorem lastWrite_isSome_of_mem (skip : String × Json → Bool)
    {l : List (String × Json)} {kv : String × Json}
    (hm : kv ∈ l) (hs : skip kv = false) :
    ∃ w, lastWrite skip l kv.1 = some w := by
  induction l with
  | nil => exact absurd hm (List.not_mem_nil kv)
  | cons hd rest ih =>
    rw [lastWrite]
    cases hlw : lastWrite skip rest kv.1 with
    | some v => exact ⟨v, rfl⟩
    | none =>
      rcases List.mem_cons.mp hm with heq | hmem
      · subst heq
        rw [if_pos rfl, if_neg (by simp [hs])]
        exact ⟨kv.2, rfl⟩
      · obtain ⟨w, hw⟩ := ih hmem
        rw [hw] at hlw
        exact absurd hlw (by simp)

theorem jsLookup_none_of_not_mem_keys {l : List (String × Json)} {k : String}
    (h : k ∉ keysOf l) : jsLookup k l = none := by
  induction l with
  | nil => rfl
  | cons hd tl ih =>
    have h1 : hd.1 ≠ k := by
      intro he
      exact h (by simp [keysOf, he])
    have h2 : k ∉ keysOf tl := fun hm => h (by simp [keysOf] at hm ⊢; right; exact hm)
    calc jsLookup k (hd :: tl) = jsLookup k tl := by
          obtain ⟨k0, v0⟩ := hd
          simp [jsLookup, h1]
      _ = none := ih h2

theorem mem_keys_of_jsLookup_some {l : List (String × Json)} {k : String}
    {v : Json} (h : jsLookup k l = some v) : k ∈ keysOf l := by
  by_cases hm : k ∈ keysOf l
  · exact hm
  · rw [jsLookup_none_of_not_mem_keys hm] at h
    exact absurd h (by simp)

theorem keysOf_cons (hd : String × Json) (tl : List (String × Json)) :
    keysOf (hd :: tl) = hd.1 :: keysOf tl := rfl

theorem keysOf_objSet (m : List (String × Json)) (k : String) (v : Json) :
    keysOf (objSet m k v) =
      if k ∈ keysOf m then keysOf m else keysOf m ++ [k] := by
  induction m with
  | nil => simp [objSet, keysOf]
  | cons hd tl ih =>
    obtain ⟨k0, v0⟩ := hd
    by_cases h : k0 = k
    · subst h
      have hmem : k0 ∈ keysOf ((k0, v0) :: tl) := by
        rw [keysOf_cons]; exact List.mem_cons_self _ _
      have hstep : objSet ((k0, v0) :: tl) k0 v = (k0, v) :: tl := by
        simp [objSet]
      rw [hstep, if_pos hmem, keysOf_cons, keysOf_cons]
    · have hk : k ≠ k0 := fun he => h he.symm
      have hstep : objSet ((k0, v0) :: tl) k v = (k0, v0) :: objSet tl k v := by
        simp [objSet, h]
      have hmem : (k ∈ keysOf ((k0, v0) :: tl)) ↔ (k ∈ keysOf tl) := by
        rw [keysOf_cons, List.mem_cons]
        exact ⟨fun hc => hc.resolve_left hk, Or.inr⟩
      rw [hstep]
      by_cases h2 : k ∈ keysOf tl
      · rw [if_pos (hmem.mpr h2)]
        rw [if_pos h2] at ih
        calc keysOf ((k0, v0) :: objSet tl k v)
            = k0 :: keysOf (objSet tl k v) := keysOf_cons _ _
          _ = k0 :: keysOf tl := by rw [ih]
          _ = keysOf ((k0, v0) :: tl) := rfl
      · rw [if_neg (fun hm => h2 (hmem.mp hm))]
        rw [if_neg h2] at ih
        calc keysOf ((k0, v0) :: objSet tl k v)
            = k0 :: keysOf (objSet tl k v) := keysOf_cons _ _
          _ = k0 :: (keysOf tl ++ [k]) := by rw [ih]
          _ = keysOf ((k0, v0) :: tl) ++ [k] := by rw [keysOf_cons]; rfl

theorem lastWrite_none_of_not_mem_keys (skip : String × Json → Bool)
    {l : List (String × Json)} {k : String} (h : k ∉ keysOf l) :
    lastWrite skip l k = none := by
  induction l with
  | nil => rfl
  | cons kv rest ih =>
    have h1 : kv.1 ≠ k := by
      intro he
      exact h (by rw [keysOf_cons, he]; exact List.mem_cons_self _ _)
    have h2 : k ∉ keysOf rest := fun hm =>
      h (by rw [keysOf_cons]; exact List.mem_cons_of_mem _ hm)
    rw [lastWrite, ih h2]
    simp [h1]

theorem lastWrite_of_nodup (skip : String × Json → Bool)
    (l : List (String × Json)) (k : String) (hnd : (keysOf l).Nodup) :
    lastWrite skip l k =
      match jsLookup k l with
      | some v => if skip (k, v) then none else some v
      | none => none := by
  induction l with
  | nil => rfl
  | cons kv rest ih =>
    obtain ⟨k0, v0⟩ := kv
    rw [keysOf_cons] at hnd
    obtain ⟨hk0, hndr⟩ := List.nodup_cons.mp hnd
    by_cases hk : k0 = k
    · subst hk
      have hnone : lastWrite skip rest k0 = none :=
        lastWrite_none_of_not_mem_keys skip hk0
      rw [lastWrite, hnone]
      simp [jsLookup]
    · have hlk : jsLookup k ((k0, v0) :: rest) = jsLookup k rest := by
        simp [jsLookup, hk]
      rw [lastWrite, hlk, ← ih hndr]
      cases hlw : lastWrite skip rest k <;> simp [hlw, hk]

theorem keysNodup_objSet {m : List (String × Json)} (k : String) (v : Json)
    (h : (keysOf m).Nodup) : (keysOf (objSet m k v)).Nodup := by
  rw [keysOf_objSet]
  by_cases hm : k ∈ keysOf m
  · rw [if_pos hm]; exact h
  · rw [if_neg hm]
    simp [List.nodup_append, h, hm]

theorem keysNodup_mergeMap (skip : String × Json → Bool)
    (l : List (String × Json)) (m : List (String × Json))
    (h : (keysOf m).Nodup) : (keysOf (mergeMap skip m l)).Nodup := by
  induction l generalizing m with
  | nil => exact h
  | cons kv rest ih =>
    have hstep : mergeMap skip m (kv :: rest) =
        mergeMap skip (applyKV skip m kv) rest := rfl
    rw [hstep]
    apply ih
    cases hsk : skip kv with
    | true => simpa [applyKV, hsk] using h
    | false =>
      simp only [applyKV, hsk, Bool.false_eq_true, if_false]
      exact keysNodup_objSet _ _ h

theorem keysOf_mergeMap_covered (skip : String × Json → Bool)
    (l : List (String × Json)) (m : List (String × Json))
    (h : ∀ kv ∈ l, skip kv = true ∨ kv.1 ∈ keysOf m) :
    keysOf (mergeMap skip m l) = keysOf m := by
  induction l generalizing m with
  | nil => rfl
  | cons kv rest ih =>
    have hstep : mergeMap skip m (kv :: rest) =
        mergeMap skip (applyKV skip m kv) rest := rfl
    have hkeys : keysOf (applyKV skip m kv) = keysOf m := by
      rcases h kv (List.mem_cons_self _ _) with hs | hin
      · simp [applyKV, hs]
      · cases hsk : skip kv with
        | true => simp [applyKV, hsk]
        | false =>
          simp only [applyKV, hsk, Bool.false_eq_true, if_false]
          rw [keysOf_objSet, if_pos hin]
    have hrest : ∀ kv' ∈ rest, skip kv' = true ∨ kv'.1 ∈ keysOf (applyKV skip m kv) := by
      intro kv' hm'
      rcases h kv' (List.mem_cons_of_mem _ hm') with hs | hin
      · exact Or.inl hs
      · exact Or.inr (hkeys ▸ hin)
    rw [hstep, ih (applyKV skip m kv) hrest, hkeys]

theorem mem_keys_mergeMap_of_mem (skip : String × Json → Bool)
    {l : List (String × Json)} (m : List (String × Json)) {kv : String × Json}
    (hmem : kv ∈ l) (hs : skip kv = false) :
    kv.1 ∈ keysOf (mergeMap skip m l) := by
  obtain ⟨w, hw⟩ := lastWrite_isSome_of_mem skip hmem hs
  have hchar := jsLookup_mergeMap skip l m kv.1
  rw [hw] at hchar
  exact mem_keys_of_jsLookup_some hchar

theorem assoc_ext_eq : ∀ (m1 m2 : List (String × Json)),
    keysOf m1 = keysOf m2 → (keysOf m1).Nodup →
    (∀ k, jsLookup k m1 = jsLookup k m2) → m1 = m2 := by
  intro m1
  induction m1 with
  | nil =>
    intro m2 hk _ _
    cases m2 with
    | nil => rfl
    | cons hd tl => rw [keysOf_cons] at hk; exact absurd hk (by simp [keysOf])
  | cons hd t1 ih =>
    intro m2 hk hnd hl
    obtain ⟨k0, v0⟩ := hd
    cases m2 with
    | nil => rw [keysOf_cons] at hk; exact absurd hk (by simp [keysOf])
    | cons hd2 t2 =>
      obtain ⟨k0', v0'⟩ := hd2
      rw [keysOf_cons, keysOf_cons] at hk
      injection hk with hk1 hk2
      simp only at hk1
      subst hk1
      rw [keysOf_cons] at hnd
      obtain ⟨hk0, hndt⟩ := List.nodup_cons.mp hnd
      have hv : v0 = v0' := by
        have hl0 := hl k0
        simp [jsLookup] at hl0
        exact hl0
      have hk0' : k0 ∉ keysOf t2 := hk2 ▸ hk0
      have hlt : ∀ k, jsLookup k t1 = jsLookup k t2 := by
        intro k
        by_cases hkk : k = k0
        · subst hkk
          rw [jsLookup_none_of_not_mem_keys hk0,
              jsLookup_none_of_not_mem_keys hk0']
        · have hlk := hl k
          have hne : k0 ≠ k := fun he => hkk he.symm
          simpa [jsLookup, hne] using hlk
      rw [hv, ih t2 hk2 hndt hlt]

theorem mergeMap_idem (skip : String × Json → Bool)
    (m l : List (String × Json)) (hnd : (keysOf m).Nodup) :
    mergeMap skip (mergeMap skip m l) l = mergeMap skip m l := by
  apply assoc_ext_eq
  · apply keysOf_mergeMap_covered
    intro kv hm
    cases hsk : skip kv with
    | true => exact Or.inl rfl
    | false => exact Or.inr (mem_keys_mergeMap_of_mem skip m hm hsk)
  · exact keysNodup_mergeMap skip l _ (keysNodup_mergeMap skip l m hnd)
  · intro k
    rw [jsLookup_mergeMap, jsLookup_mergeMap]
    cases hlw : lastWrite skip l k <;> simp [hlw]

theorem mergeMap_preserves (skip : String × Json → Bool)
    (m l : List (String × Json)) (k : String) (v : Json)
    (h : jsLookup k m = some v) :
    ∃ w, jsLookup k (mergeMap skip m l) = some w ∧
      (w = v ∨ skip (k, w) = false) := by
  rw [jsLookup_mergeMap]
  cases hlw : lastWrite skip l k with
  | none => exact ⟨v, h, Or.inl rfl⟩
  | some w =>
    refine ⟨w, rfl, Or.inr ?_⟩
    obtain ⟨kv, _, hkey, hskip, hval⟩ := lastWrite_some skip l k w hlw
    have : (k, w) = kv := by
      obtain ⟨a, b⟩ := kv
      simp only at hkey hval
      rw [hkey, hval]
    rw [this]
    exact hskip

theorem jsonNonEmpty_of_skipAnswer_false {w : Json} (h : skipAnswer w = false) :
    jsonNonEmpty w = true := by
  cases w with
  | null => simp [skipAnswer] at h
  | str s => simp [skipAnswer] at h; simp [jsonNonEmpty, h]
  | bool b => rfl
  | num n => rfl
  | arr xs => rfl
  | obj fs => rfl

theorem ne_null_of_skipProgress_false {w : Json} (h : skipProgress w = false) :
    w ≠ Json.null := by
  cases w with
  | null => simp [skipProgress] at h
  | str s => exact fun hc => Json.noConfusion hc
  | bool b => exact fun hc => Json.noConfusion hc
  | num n => exact fun hc => Json.noConfusion hc
  | arr xs => exact fun hc => Json.noConfusion hc
  | obj fs => exact fun hc => Json.noConfusion hc

/-! ### Claims about the attempt-merge engine -/

/-- **C4** (confirmed): the per-key merge rules of `POST /api/attempts`.
Starting from a copy of the existing `answers` mapping, an incoming answer
value of `null` is skipped, a whitespace-only string is skipped, and any
other value overwrites or inserts its key; `progress` follows the same rules
except that only `null` is skipped (whitespace-only strings do overwrite). -/
theorem attempt_merge_per_key_rules (existing incoming : List (String × Json))
    (k : String) (hnd : (keysOf incoming).Nodup) :
    (jsLookup k (mergeAnswers existing incoming) =
      match jsLookup k incoming with
      | none => jsLookup k existing
      | some Json.null => jsLookup k existing
      | some (Json.str s) =>
          if jsTrimEmpty s then jsLookup k existing else some (Json.str s)
      | some v => some v)
    ∧ (jsLookup k (mergeProgress existing incoming) =
      match jsLookup k incoming with
      | none => jsLookup k existing
      | some Json.null => jsLookup k existing
      | some v => some v) := by
  constructor
  · rw [mergeAnswers, jsLookup_mergeMap, lastWrite_of_nodup _ _ _ hnd]
    cases hv : jsLookup k incoming with
    | none => simp
    | some v =>
      cases v with
      | null => simp [skipAnswer]
      | str s => by_cases h : jsTrimEmpty s <;> simp [skipAnswer, h]
      | bool b => simp [skipAnswer]
      | num n => simp [skipAnswer]
      | arr xs => simp [skipAnswer]
      | obj fs => simp [skipAnswer]
  · rw [mergeProgress, jsLookup_mergeMap, lastWrite_of_nodup _ _ _ hnd]
    cases hv : jsLookup k incoming with
    | none => simp
    | some v =>
      cases v with
      | null => simp [skipProgress]
      | str s => simp [skipProgress]
      | bool b => simp [skipProgress]
      | num n => simp [skipProgress]
      | arr xs => simp [skipProgress]
      | obj fs => simp [skipProgress]

/-- Witness for C4 at a concrete input: an incoming `null` leaves both the
stored answer and the stored progress value untouched. -/
theorem attempt_merge_per_key_rules_witness :
    jsLookup "q1" (mergeAnswers [("q1", Json.str "A")] [("q1", Json.null)]) =
      jsLookup "q1" [("q1", Json.str "A")] ∧
    jsLookup "q1" (mergeProgress [("q1", Json.str "A")] [("q1", Json.null)]) =
      jsLookup "q1" [("q1", Json.str "A")] :=
  attempt_merge_per_key_rules [("q1", Json.str "A")] [("q1", Json.null)] "q1"
    (by decide)

/-- **C1** (counterexample): the claimed invariant fails for `progress`.
With a stored non-empty progress value `"5"` at key `p1`, an incoming
payload carrying the empty string for `p1` erases it: the progress loop only
skips `null`, so the merged record maps `p1` to the empty string, which is
not a non-empty value. -/
theorem attempt_merge_monotonic_cex :
    jsonNonEmpty (Json.str "5") = true ∧
    jsLookup "p1" (postAttempt
        (some { quizId := none, email := none, answers := [],
                progress := [("p1", Json.str "5")], score := none,
                totalQuestions := none, submitted := none, submittedAt := 0 })
        [("progress", Json.obj [("p1", Json.str "")])] 1).progress
      = some (Json.str "") ∧
    jsonNonEmpty (Json.str "") = false :=
  ⟨rfl, rfl, rfl⟩

/-- **C1** (amended): the monotonicity invariant holds for `answers` — a key
whose stored value is non-empty (not `null`, not whitespace-only) still has
a non-empty value after any merge — while for `progress` only `null` is
skipped: a stored progress key always keeps some value, and that value is
either the old one or a non-null incoming one (so an incoming empty string
can replace, but an incoming `null` cannot erase). -/
theorem attempt_merge_monotonic_amended (existing : AttemptDoc)
    (body : List (String × Json)) (now : Nat) (k : String) (v : Json) :
    (jsLookup k existing.answers = some v → jsonNonEmpty v = true →
      ∃ w, jsLookup k (postAttempt (some existing) body now).answers = some w ∧
        jsonNonEmpty w = true)
    ∧ (jsLookup k existing.progress = some v →
      ∃ w, jsLookup k (postAttempt (some existing) body now).progress = some w ∧
        (w = v ∨ w ≠ Json.null)) := by
  constructor
  · intro h hne
    have hmerge : (postAttempt (some existing) body now).answers =
        mergeMap (fun kv => skipAnswer kv.2) existing.answers
          (collectIncomingAnswers body) := rfl
    rw [hmerge]
    obtain ⟨w, hw, hcase⟩ :=
      mergeMap_preserves (fun kv => skipAnswer kv.2) existing.answers
        (collectIncomingAnswers body) k v h
    refine ⟨w, hw, ?_⟩
    rcases hcase with rfl | hskip
    · exact hne
    · exact jsonNonEmpty_of_skipAnswer_false (by simpa using hskip)
  · intro h
    have hmerge : (postAttempt (some existing) body now).progress =
        mergeMap (fun kv => skipProgress kv.2) existing.progress
          (collectIncomingProgress body) := rfl
    rw [hmerge]
    obtain ⟨w, hw, hcase⟩ :=
      mergeMap_preserves (fun kv => skipProgress kv.2) existing.progress
        (collectIncomingProgress body) k v h
    refine ⟨w, hw, ?_⟩
    rcases hcase with rfl | hskip
    · exact Or.inl rfl
    · exact Or.inr (ne_null_of_skipProgress_false (by simpa using hskip))

/-- Witness for the amended C1: a stored answer `"A"` survives an incoming
whitespace-only submission for the same key. -/
theorem attempt_merge_monotonic_amended_witness :
    ∃ w, jsLookup "q1" (postAttempt
        (some { quizId := none, email := none,
                answers := [("q1", Json.str "A")],
                progress := [("p1", Json.num 5)], score := none,
                totalQuestions := none, submitted := none, submittedAt := 0 })
        [("q1", Json.str " ")] 2).answers = some w ∧
      jsonNonEmpty w = true :=
  (attempt_merge_monotonic_amended
    { quizId := none, email := none, answers := [("q1", Json.str "A")],
      progress := [("p1", Json.num 5)], score := none,
      totalQuestions := none, submitted := none, submittedAt := 0 }
    [("q1", Json.str " ")] 2 "q1" (Json.str "A")).1 rfl rfl

/-- **C5** (confirmed): the merge of `POST /api/attempts` is idempotent on
retries — re-applying the same payload, with the first merged record as the
existing record, reproduces the single-application result (the clock reading
of the retry is used either way, so the statement holds for any pair of
submission times). -/
theorem attempt_merge_idempotent (existing : AttemptDoc)
    (body : List (String × Json)) (t1 t2 : Nat)
    (hA : (keysOf existing.answers).Nodup)
    (hP : (keysOf existing.progress).Nodup) :
    postAttempt (some (postAttempt (some existing) body t1)) body t2 =
      postAttempt (some existing) body t2 := by
  simp only [postAttempt, mergeAnswers, mergeProgress, AttemptDoc.mk.injEq,
    eq_self_iff_true, true_and, and_true]
  exact ⟨mergeMap_idem _ _ _ hA, mergeMap_idem _ _ _ hP⟩

/-- Witness for C5 at a concrete record and payload. -/
theorem attempt_merge_idempotent_witness :
    postAttempt (some (postAttempt
        (some { quizId := none, email := none,
                answers := [("q1", Json.str "A")],
                progress := [("p1", Json.num 5)], score := none,
                totalQuestions := none, submitted := none, submittedAt := 0 })
        [("q2", Json.str "B"), ("progress", Json.obj [("p1", Json.num 7)])] 1))
      [("q2", Json.str "B"), ("progress", Json.obj [("p1", Json.num 7)])] 2 =
    postAttempt
      (some { quizId := none, email := none,
              answers := [("q1", Json.str "A")],
              progress := [("p1", Json.num 5)], score := none,
              totalQuestions := none, submitted := none, submittedAt := 0 })
      [("q2", Json.str "B"), ("progress", Json.obj [("p1", Json.num 7)])] 2 :=
  attempt_merge_idempotent
    { quizId := none, email := none, answers := [("q1", Json.str "A")],
      progress := [("p1", Json.num 5)], score := none,
      totalQuestions := none, submitted := none, submittedAt := 0 }
    [("q2", Json.str "B"), ("progress", Json.obj [("p1", Json.num 7)])] 1 2
    (by decide) (by decide)

/-- **C7** (confirmed): the merged record copies `score`, `totalQuestions`
and `submitted` directly from the incoming body (never merged with prior
values) and stamps `submittedAt` with the current clock; in particular a
body carrying `submitted:false` overwrites a stored `submitted:true`. -/
theorem attempt_submission_fields_from_payload (existing : Option AttemptDoc)
    (body : List (String × Json)) (now : Nat) :
    (postAttempt existing body now).score = jsLookup "score" body ∧
    (postAttempt existing body now).totalQuestions =
      jsLookup "totalQuestions" body ∧
    (postAttempt existing body now).submitted = jsLookup "submitted" body ∧
    (postAttempt existing body now).submittedAt = now ∧
    (∀ e : AttemptDoc, e.submitted = some (Json.bool true) →
      jsLookup "submitted" body = some (Json.bool false) →
      (postAttempt (some e) body now).submitted = some (Json.bool false)) :=
  ⟨rfl, rfl, rfl, rfl, fun _ _ hb => hb⟩

/-- Witness for C7: a stored `submitted:true` record is un-submitted by a
body carrying `submitted:false`. -/
theorem attempt_submission_fields_from_payload_witness :
    (postAttempt
      (some { quizId := none, email := none, answers := [], progress := [],
              score := none, totalQuestions := none,
              submitted := some (Json.bool true), submittedAt := 0 })
      [("submitted", Json.bool false)] 3).submitted = some (Json.bool false) :=
  (attempt_submission_fields_from_payload
    (some { quizId := none, email := none, answers := [], progress := [],
            score := none, totalQuestions := none,
            submitted := some (Json.bool true), submittedAt := 0 })
    [("submitted", Json.bool false)] 3).2.2.2.2
    { quizId := none, email := none, answers := [], progress := [],
      score := none, totalQuestions := none,
      submitted := some (Json.bool true), submittedAt := 0 } rfl rfl

/-- **C10** (confirmed): when the body carries both a nested `answers`
mapping and a top-level `qN` key for the same question key, the top-level
value wins, because top-level `/^q\d+$/` keys are folded in after the nested
mapping has been copied. -/
theorem toplevel_question_key_precedence (body a : List (String × Json))
    (k : String) (vTop vNested : Json)
    (hnd : (keysOf body).Nodup) (hq : isQuestionKey k = true)
    (_hans : jsLookup "answers" body = some (Json.obj a))
    (_hnested : jsLookup k a = some vNested)
    (htop : jsLookup k body = some vTop) :
    jsLookup k (collectIncomingAnswers body) = some vTop := by
  simp only [collectIncomingAnswers]
  rw [jsLookup_mergeMap, lastWrite_of_nodup _ _ _ hnd, htop]
  simp [hq]

/-- Witness for C10: top-level `q1:"B"` beats nested `answers.q1:"A"`. -/
theorem toplevel_question_key_precedence_witness :
    jsLookup "q1" (collectIncomingAnswers
      [("answers", Json.obj [("q1", Json.str "A")]), ("q1", Json.str "B")]) =
      some (Json.str "B") :=
  toplevel_question_key_precedence
    [("answers", Json.obj [("q1", Json.str "A")]), ("q1", Json.str "B")]
    [("q1", Json.str "A")] "q1" (Json.str "B") (Json.str "A")
    (by decide) rfl rfl rfl rfl

/-! ### The response normalizer -/

/-- Case-insensitive ASCII prefix test (the `/i` flag on the fence tag). -/
def startsWithCI (s tag : String) : Bool :=
  (s.take tag.length).map Char.toLower == tag

/-- `stripCodeFences` (source lines 37-40): `if (!s) return s;` then remove a
leading fence marker — three backticks, an optional case-insensitive
`html`/`json` tag, and any following whitespace — and then a trailing
three-backtick marker anchored at the end of the string. -/
def stripCodeFences (s : String) : String :=
  if s = "" then s
  else
    let afterLead :=
      if s.startsWith "```" then
        let rest := s.drop 3
        let rest :=
          if startsWithCI rest "html" then rest.drop 4
          else if startsWithCI rest "json" then rest.drop 4
          else rest
        String.mk (rest.data.dropWhile jsIsSpace)
      else s
    if afterLead.endsWith "```" then afterLead.dropRight 3 else afterLead

/-- Strategy-3 preprocessing (source line 61): replace typographic double
and single quotes by their ASCII forms and delete the control characters
`\u0000`-`\u001F` and `\u007F`-`\u009F`. -/
def normalizeSmart (text : String) : String :=
  String.mk (text.data.filterMap (fun c =>
    if c = Char.ofNat 0x201C ∨ c = Char.ofNat 0x201D then some (Char.ofNat 34)
    else if c = Char.ofNat 0x2018 ∨ c = Char.ofNat 0x2019 then
      some (Char.ofNat 39)
    else if c.toNat ≤ 0x1F ∨ (0x7F ≤ c.toNat ∧ c.toNat ≤ 0x9F) then none
    else some c))

/-- Strategy-3 extraction (source lines 63-68): the substring from the first
opening brace to the last closing brace, required to be a non-trivial span. -/
def braceSlice (t : String) : Option String :=
  let cs := t.data
  match cs.findIdx? (fun c => c == Char.ofNat 123) with
  | none => none
  | some i =>
    match cs.reverse.findIdx? (fun c => c == Char.ofNat 125) with
    | none => none
    | some rj =>
      let j := cs.length - 1 - rj
      if i < j then some (String.mk ((cs.drop i).take (j + 1 - i))) else none

/-- Whether the lowercased head of `cs` is exactly `pat`. -/
def matchesAtCI (pat cs : List Char) : Bool :=
  (cs.take pat.length).map Char.toLower == pat

/-- Index of the first case-insensitive occurrence of `pat` in a character
list. -/
def findIdxSubstrCI (pat : List Char) : List Char → Option Nat
  | [] => if matchesAtCI pat [] then some 0 else none
  | c :: rest =>
    if matchesAtCI pat (c :: rest) then some 0
    else (findIdxSubstrCI pat rest).map (fun n => n + 1)

/-- Strategy 4 (source lines 70-73): the first match of the lazy pattern
matching a case-insensitive triple-backtick `json` opener, a shortest body,
and a triple-backtick closer; the capture is the body between the opener and
the nearest following closer.  (A later opener can only match if the first
one does, since its own backticks would already close the first.) -/
def jsonFenceBlock (text : String) : Option String :=
  let cs := text.data
  match findIdxSubstrCI "```json".data cs with
  | none => none
  | some i =>
    let afterTag := cs.drop (i + 7)
    match findIdxSubstrCI "```".data afterTag with
    | none => none
    | some j => some (String.mk (afterTag.take j))

/-- JS `String(x).slice(0, n)` on a string: the first `n` characters. -/
def jsSlice (s : String) (n : Nat) : String := String.mk (s.data.take n)

/-- `parseJsonLenient` (source lines 50-75), with the platform `JSON.parse`
abstracted as `p` (`none` = a thrown `SyntaxError`): empty input returns
null; otherwise the four recovery strategies run in order, stopping at the
first success, and the result is null when all fail. -/
def parseJsonLenient (p : String → Option Json) (text : String) :
    Option Json :=
  if text = "" then none
  else
    match p text with
    | some v => some v
    | none =>
      match p (stripCodeFences text) with
      | some v => some v
      | none =>
        match (braceSlice (normalizeSmart text)).bind p with
        | some v => some v
        | none => (jsonFenceBlock text).bind p

/-- **C2** (confirmed): `parseJsonLenient` runs exactly the four strategies
in order — direct parse, fence-stripped parse, smart-quote/control-char
normalization plus brace-block parse, and fenced-`json`-block parse —
stopping at the first success; for input that already parses (strategy 1
succeeds) the result is the direct parse and no fallback contributes.  The
hypothesis `p "" = none` records that `JSON.parse` rejects empty input. -/
theorem parseJsonLenient_strategy_order (p : String → Option Json)
    (text : String) (hp : p "" = none) :
    (∀ v, p text = some v → parseJsonLenient p text = some v)
    ∧ (p text = none → ∀ v, p (stripCodeFences text) = some v →
        parseJsonLenient p text = some v)
    ∧ (p text = none → p (stripCodeFences text) = none →
        ∀ v, (braceSlice (normalizeSmart text)).bind p = some v →
        parseJsonLenient p text = some v)
    ∧ (p text = none → p (stripCodeFences text) = none →
        (braceSlice (normalizeSmart text)).bind p = none →
        parseJsonLenient p text = (jsonFenceBlock text).bind p) := by
  by_cases h0 : text = ""
  · subst h0
    refine ⟨?_, ?_, ?_, ?_⟩
    · intro v hv
      rw [hp] at hv
      exact absurd hv (by simp)
    · intro _ v hv
      have hsf : stripCodeFences "" = "" := rfl
      rw [hsf, hp] at hv
      exact absurd hv (by simp)
    · intro _ _ v hv
      have hbs : braceSlice (normalizeSmart "") = none := rfl
      rw [hbs] at hv
      exact absurd hv (by simp)
    · intro _ _ _
      have h1 : parseJsonLenient p "" = none := by simp [parseJsonLenient]
      have h2 : jsonFenceBlock "" = none := rfl
      rw [h1, h2]
      rfl
  · refine ⟨?_, ?_, ?_, ?_⟩
    · intro v hv
      simp [parseJsonLenient, h0, hv]
    · intro h1 v hv
      simp [parseJsonLenient, h0, h1, hv]
    · intro h1 h2 v hv
      simp [parseJsonLenient, h0, h1, h2, hv]
    · intro h1 h2 h3
      simp [parseJsonLenient, h0, h1, h2, h3]

/-- Witness for C2: a parser accepting the valid JSON text `true` makes
strategy 1 produce the parsed value directly. -/
theorem parseJsonLenient_strategy_order_witness :
    parseJsonLenient
      (fun s => if s = "true" then some (Json.bool true) else none) "true" =
      some (Json.bool true) :=
  (parseJsonLenient_strategy_order
    (fun s => if s = "true" then some (Json.bool true) else none) "true"
    rfl).1 (Json.bool true) rfl

/-! ### The parse endpoints after the generation call -/

/-- JS property read `v[k]` for the field names used by the pipeline:
defined on plain objects, `undefined` (here `none`) on arrays and non-null
primitives; a read on `null` throws and is modelled where it can occur. -/
def getField (v : Json) (k : String) : Option Json :=
  match v with
  | .obj fields => jsLookup k fields
  | _ => none

/-- JS property write `v[k] = w`: updates a plain object; on primitives the
write is silently dropped (non-strict mode) and on arrays the named property
is invisible to JSON serialization, so the value is modelled unchanged. -/
def setField (v : Json) (k : String) (w : Json) : Json :=
  match v with
  | .obj fields => .obj (objSet fields k w)
  | other => other

/-- JS `a || b` over possibly-absent values. -/
def jsOr (a b : Option Json) : Option Json :=
  match a with
  | some v => if jsTruthy v then some v else b
  | none => b

/-- `const questionText = q.question || q.prompt` (source line 161). -/
def questionTextOf (q : Json) : Option Json :=
  jsOr (getField q "question") (getField q "prompt")

/-- The per-question body of the hint loop (source lines 161-173): when the
question text is truthy, call the hint generator `g`; on success store the
trimmed hint, on failure store the empty string; otherwise leave the
question untouched. -/
def hintStep (g : Json → Except String String) (q : Json) : Json :=
  match questionTextOf q with
  | some v =>
    if jsTruthy v then
      match g v with
      | .ok hint => setField q "hint" (Json.str (jsTrim hint))
      | .error _ => setField q "hint" (Json.str "")
    else q
  | none => q

/-- The whole hint loop over `quizData.questions`: reading `q.question` on a
`null` element throws a `TypeError`, which escapes to the outer catch;
otherwise each element is processed independently by `hintStep`. -/
def processHints (g : Json → Except String String) :
    List Json → Except String (List Json)
  | [] => .ok []
  | q :: rest =>
    match q with
    | .null => .error "TypeError"
    | _ =>
      match processHints g rest with
      | .error e => .error e
      | .ok rest2 => .ok (hintStep g q :: rest2)

/-- Outcome of a parse endpoint after the generation call returned
`aiResponse`: the 422 invalid-model-output failure with truncated raw text,
a 500 internal failure from an uncaught error, or a 200 success carrying the
quiz. -/
inductive EndpointResult where
  | failure422 (raw : String)
  | failure500 (msg : String)
  | success (quiz : Json)

/-- The shared tail of `POST /api/parse-image` (source lines 154-182) and
`POST /api/parse-pdf` (lines 206-234): lenient-parse the model output;
if the result is falsy or not `typeof 'object'`, answer 422 with the raw
text truncated to 4000 characters; otherwise run the hint loop when
`questions` is an array, and answer the quiz. -/
def parseEndpointAfterAI (p : String → Option Json)
    (g : Json → Except String String) (aiResponse : String) : EndpointResult :=
  match parseJsonLenient p aiResponse with
  | none => .failure422 (jsSlice aiResponse 4000)
  | some quizData =>
    if !jsTruthy quizData || !jsTypeofObject quizData then
      .failure422 (jsSlice aiResponse 4000)
    else
      match getField quizData "questions" with
      | some (Json.arr qs) =>
        match processHints g qs with
        | .ok qs2 => .success (setField quizData "questions" (Json.arr qs2))
        | .error e => .failure500 e
      | _ => .success quizData

/-- **C3** (confirmed): when all four parse strategies fail, or the parsed
value is not an object in the sense the code tests (`typeof !== 'object'`,
i.e. a boolean, number or string), the parse endpoints answer the
invalid-model-output failure (HTTP 422) carrying the raw model text
truncated to at most 4000 characters, and no quiz is returned. -/
theorem parse_endpoint_invalid_output_422 (p : String → Option Json)
    (g : Json → Except String String) (text : String)
    (h : parseJsonLenient p text = none ∨
      ∃ v, parseJsonLenient p text = some v ∧ jsTypeofObject v = false) :
    parseEndpointAfterAI p g text = .failure422 (jsSlice text 4000) ∧
    (jsSlice text 4000).length ≤ 4000 := by
  constructor
  · rcases h with h | ⟨v, hv, hobj⟩
    · simp [parseEndpointAfterAI, h]
    · simp [parseEndpointAfterAI, hv, hobj]
  · show (String.mk (text.data.take 4000)).length ≤ 4000
    simp [List.length_take_le 4000 text.data]

/-- Witness for C3: text on which every strategy fails yields the 422
failure with the (un-truncated, short) raw text. -/
theorem parse_endpoint_invalid_output_422_witness :
    parseEndpointAfterAI (fun _ => none) (fun _ => Except.error "e")
      "not json" = EndpointResult.failure422 (jsSlice "not json" 4000) ∧
    (jsSlice "not json" 4000).length ≤ 4000 :=
  parse_endpoint_invalid_output_422 (fun _ => none)
    (fun _ => Except.error "e") "not json" (Or.inl rfl)

theorem processHints_ok (g : Json → Except String String) (qs : List Json)
    (h : ∀ q ∈ qs, q ≠ Json.null) :
    processHints g qs = .ok (qs.map (hintStep g)) := by
  induction qs with
  | nil => rfl
  | cons q rest ih =>
    have hq : q ≠ Json.null := h q (List.mem_cons_self _ _)
    have hrest := ih (fun x hx => h x (List.mem_cons_of_mem _ hx))
    cases q with
    | null => exact absurd rfl hq
    | bool b => simp [processHints, hrest]
    | num n => simp [processHints, hrest]
    | str s => simp [processHints, hrest]
    | arr xs => simp [processHints, hrest]
    | obj fs => simp [processHints, hrest]

/-- **C6** (confirmed): for a successfully parsed quiz whose `questions`
field is an array (of non-null elements), the hint pass is best-effort and
isolated per question: the endpoint still succeeds, every element is
processed independently by `hintStep`, and a question whose hint-generation
call fails gets the empty-string hint while the rest continue. -/
theorem hint_pass_best_effort (p : String → Option Json)
    (g : Json → Except String String) (text : String) (v : Json)
    (qs : List Json)
    (hparse : parseJsonLenient p text = some v)
    (htruthy : jsTruthy v = true) (hobj : jsTypeofObject v = true)
    (hqs : getField v "questions" = some (Json.arr qs))
    (hnonnull : ∀ q ∈ qs, q ≠ Json.null) :
    parseEndpointAfterAI p g text =
      .success (setField v "questions" (Json.arr (qs.map (hintStep g))))
    ∧ (∀ q ∈ qs, ∀ w, questionTextOf q = some w → jsTruthy w = true →
        ∀ e, g w = .error e → hintStep g q = setField q "hint" (Json.str "")) := by
  constructor
  · simp [parseEndpointAfterAI, hparse, htruthy, hobj, hqs,
      processHints_ok g qs hnonnull]
  · intro q _ w hw htw e hge
    simp [hintStep, hw, htw, hge]

/-- Witness for C6: a one-question quiz whose hint call fails still
succeeds, with the hint degraded to the empty string. -/
theorem hint_pass_best_effort_witness :
    parseEndpointAfterAI
      (fun s => if s = "x" then
        some (Json.obj [("questions",
          Json.arr [Json.obj [("question", Json.str "Q")]])]) else none)
      (fun _ => Except.error "boom") "x" =
      EndpointResult.success (Json.obj [("questions",
        Json.arr [Json.obj [("question", Json.str "Q"),
                            ("hint", Json.str "")]])]) := by
  have h := hint_pass_best_effort
    (fun s => if s = "x" then
      some (Json.obj [("questions",
        Json.arr [Json.obj [("question", Json.str "Q")]])]) else none)
    (fun _ => Except.error "boom") "x"
    (Json.obj [("questions", Json.arr [Json.obj [("question", Json.str "Q")]])])
    [Json.obj [("question", Json.str "Q")]]
    rfl rfl rfl rfl
    (by
      intro q hq
      rw [List.mem_singleton] at hq
      subst hq
      exact fun hc => Json.noConfusion hc)
  exact h.1

/-! ### GET /api/quizzes/:id allow-list -/

/-- Stored quiz fields relevant to `GET /api/quizzes/:id`. -/
structure QuizRec where
  finalizedJson : Option Json
  filePath : Option String
  allowedStudents : List String

/-- `path.basename`: the final path component. -/
def basenameModel (s : String) : String := (s.splitOn "/").getLastD s

/-- The `fileUrl` computed by the route (source lines 350-351). -/
def fileUrlOf (host : String) (q : QuizRec) : Option String :=
  q.filePath.map (fun fp => host ++ "/server/uploads/" ++ basenameModel fp)

/-- Outcome of `GET /api/quizzes/:id`. -/
inductive QuizGetResult where
  | notFound
  | forbidden
  | ok (quiz : QuizRec) (fileUrl : Option String)

/-- `GET /api/quizzes/:id` (source lines 335-356): 404 when no quiz has the
id; when the allow-list is non-empty, 403 unless the `email` query value is
truthy (present and non-empty) and a member of the list; otherwise 200 with
the stored quiz and its file URL.  `email = none` models an absent query
parameter. -/
def getQuizById (store : String → Option QuizRec) (qid : String)
    (email : Option String) (host : String) : QuizGetResult :=
  match store qid with
  | none => .notFound
  | some q =>
    if q.allowedStudents.length > 0 then
      match email with
      | none => .forbidden
      | some e =>
        if e = "" then .forbidden
        else if q.allowedStudents.contains e then .ok q (fileUrlOf host q)
        else .forbidden
    else .ok q (fileUrlOf host q)

/-- **C8** (counterexample): the claim fails at the empty-string edge.  The
guard `!email` treats a present-but-empty `email` query value as absent, so
a quiz whose allow-list contains the empty string answers 403 to a request
whose email *is* a member of the list. -/
theorem quiz_allowlist_cex :
    [""].contains "" = true ∧
    getQuizById
      (fun s => if s = "z" then
        some { finalizedJson := none, filePath := none,
               allowedStudents := [""] } else none)
      "z" (some "") "h" = QuizGetResult.forbidden :=
  ⟨rfl, rfl⟩

/-- **C8** (amended): for a quiz with a non-empty allow-list, the route
answers 403 when the email query value is absent, empty, or not a member,
and 200 with the quiz and file URL when it is non-empty and a member; when
the allow-list is empty no email check is performed and the quiz is always
returned. -/
theorem quiz_allowlist_amended (store : String → Option QuizRec)
    (qid host : String) (email : Option String) (q : QuizRec)
    (hq : store qid = some q) :
    (q.allowedStudents ≠ [] →
      ((email = none ∨ email = some "") →
        getQuizById store qid email host = .forbidden)
      ∧ (∀ e, email = some e → e ≠ "" →
          (q.allowedStudents.contains e = false →
            getQuizById store qid email host = .forbidden)
          ∧ (q.allowedStudents.contains e = true →
            getQuizById store qid email host = .ok q (fileUrlOf host q))))
    ∧ (q.allowedStudents = [] →
      getQuizById store qid email host = .ok q (fileUrlOf host q)) := by
  constructor
  · intro hne
    have hlen : q.allowedStudents.length > 0 := by
      cases hl : q.allowedStudents with
      | nil => exact absurd hl hne
      | cons a as => simp [hl]
    constructor
    · rintro (rfl | rfl) <;> simp [getQuizById, hq, hlen]
    · rintro e rfl he
      constructor
      · intro hcon
        have hm : e ∉ q.allowedStudents := by simpa using hcon
        simp [getQuizById, hq, hlen, he, hm]
      · intro hcon
        have hm : e ∈ q.allowedStudents := by simpa using hcon
        simp [getQuizById, hq, hlen, he, hm]
  · intro hnil
    simp [getQuizById, hq, hnil]

/-- Witness for the amended C8: a member email gets the quiz, per the
spec example `allowedStudents=["a@x.com"]`, `email=a@x.com`. -/
theorem quiz_allowlist_amended_witness :
    getQuizById
      (fun s => if s = "z" then
        some { finalizedJson := none, filePath := none,
               allowedStudents := ["a@x.com"] } else none)
      "z" (some "a@x.com") "h" =
      QuizGetResult.ok
        { finalizedJson := none, filePath := none,
          allowedStudents := ["a@x.com"] }
        (fileUrlOf "h"
          { finalizedJson := none, filePath := none,
            allowedStudents := ["a@x.com"] }) :=
  (((quiz_allowlist_amended
      (fun s => if s = "z" then
        some { finalizedJson := none, filePath := none,
               allowedStudents := ["a@x.com"] } else none)
      "z" "h" (some "a@x.com")
      { finalizedJson := none, filePath := none,
        allowedStudents := ["a@x.com"] } rfl).1
    (by simp)).2 "a@x.com" rfl (by simp)).2 rfl

/-! ### POST /api/chats -/

mutual
/-- Structural value equality on modelled JS values, used for the document
store's match-by-`id` in `findOneAndUpdate`. -/
def jsonEq : Json → Json → Bool
  | .str a, .str c => a == c
  | .num a, .num c => a == c
  | .bool a, .bool c => a == c
  | .null, .null => true
  | .arr xs, .arr ys => jsonEqList xs ys
  | .obj fs, .obj gs => jsonEqFields fs gs
  | _, _ => false

def jsonEqList : List Json → List Json → Bool
  | x :: xs, y :: ys =>
      if jsonEq x y then jsonEqList xs ys else false
  | [], [] => true
  | _, _ => false

def jsonEqFields : List (String × Json) → List (String × Json) → Bool
  | f :: fs, g :: gs =>
      if f.1 == g.1 && jsonEq f.2 g.2 then jsonEqFields fs gs else false
  | [], [] => true
  | _, _ => false
end

/-- One clause `(typeof x === 'string' && x)` of the payload-shape chain:
the value when it is a non-empty string, nothing otherwise. -/
def strTruthy : Option Json → Option String
  | some (Json.str s) => if s = "" then none else some s
  | _ => none

/-- A guarded nested read `outer && outer.f` (the truthiness guard prevents
the throwing read on `null`). -/
def guardedField (body : List (String × Json)) (outer f : String) :
    Option Json :=
  match jsLookup outer body with
  | some m => if jsTruthy m then getField m f else none
  | none => none

/-- `resolvedText` (source lines 402-406): the first non-empty string among
`text`, `content`, `message.content`, `message.text`, else the empty
string. -/
def resolveChatText (body : List (String × Json)) : String :=
  ((strTruthy (jsLookup "text" body)) <|>
   (strTruthy (jsLookup "content" body)) <|>
   (strTruthy (guardedField body "message" "content")) <|>
   (strTruthy (guardedField body "message" "text"))).getD ""

/-- `effectiveRole` (source lines 407-409). -/
def resolveChatRole (body : List (String × Json)) : String :=
  ((strTruthy (jsLookup "role" body)) <|>
   (strTruthy (guardedField body "message" "role"))).getD "user"

/-- The first truthy value of a `||` chain over possibly-absent values. -/
def firstTruthy : List (Option Json) → Option Json
  | [] => none
  | a :: rest =>
    match a with
    | some v => if jsTruthy v then some v else firstTruthy rest
    | none => firstTruthy rest

/-- `effectiveTeacherId` (source line 410):
`teacherId || (message && message.teacherId) || (meta && meta.teacherId)`. -/
def resolveTeacherId (body : List (String × Json)) : Option Json :=
  firstTruthy [jsLookup "teacherId" body,
    guardedField body "message" "teacherId",
    guardedField body "meta" "teacherId"]

/-- A stored chat message.  `timestamp` carries the client value when it is
truthy (`new Date(timestamp)` modelled by the value itself) and the clock
reading `now` otherwise. -/
structure ChatRec where
  id : Json
  role : String
  text : String
  meta : Option Json
  teacherId : Json
  timestamp : Json

/-- `Chat.findOneAndUpdate({id}, doc, {upsert:true})` on a store with
unique ids: replace the first record whose id matches, else append. -/
def upsertChat : List ChatRec → ChatRec → List ChatRec
  | [], c => [c]
  | x :: rest, c =>
    if jsonEq x.id c.id then c :: rest else x :: upsertChat rest c

/-- The chat document built by `POST /api/chats` (source lines 415-422);
`freshId` models `Date.now().toString(36)`. -/
def chatDocOf (body : List (String × Json)) (tid : Json) (freshId : String)
    (now : Int) : ChatRec :=
  { id :=
      match jsLookup "id" body with
      | some v => if jsTruthy v then v else Json.str ("msg_" ++ freshId)
      | none => Json.str ("msg_" ++ freshId)
    role := resolveChatRole body
    text := resolveChatText body
    meta := jsLookup "meta" body
    teacherId := tid
    timestamp :=
      match jsLookup "timestamp" body with
      | some t => if jsTruthy t then t else Json.num now
      | none => Json.num now }

/-- Outcome of `POST /api/chats`. -/
inductive ChatPostOutcome where
  | badRequest (msg : String)
  | created (chat : ChatRec)

/-- `POST /api/chats` (source lines 397-432): 400 when no truthy teacherId
can be resolved or the resolved text is empty/whitespace; otherwise build
the document and upsert it by id, returning the saved chat. -/
def postChat (store : List ChatRec) (body : List (String × Json))
    (freshId : String) (now : Int) : ChatPostOutcome × List ChatRec :=
  match resolveTeacherId body with
  | none => (.badRequest "teacherId required", store)
  | some tid =>
    if jsTrimEmpty (resolveChatText body) then
      (.badRequest "text/content required", store)
    else
      (.created (chatDocOf body tid freshId now),
       upsertChat store (chatDocOf body tid freshId now))

theorem upsertChat_fresh (store : List ChatRec) (c : ChatRec)
    (h : ∀ x ∈ store, jsonEq x.id c.id = false) :
    upsertChat store c = store ++ [c] := by
  induction store with
  | nil => rfl
  | cons hd rest ih =>
    have hhd := h hd (List.mem_cons_self _ _)
    rw [upsertChat, if_neg (by simp [hhd])]
    rw [ih (fun x hx => h x (List.mem_cons_of_mem _ hx))]
    rfl

theorem upsertChat_mem_or (store : List ChatRec) (c : ChatRec) :
    ∀ x ∈ store, x ∈ upsertChat store c ∨ jsonEq x.id c.id = true := by
  induction store with
  | nil => intro x hx; exact absurd hx (List.not_mem_nil x)
  | cons hd rest ih =>
    intro x hx
    rw [upsertChat]
    cases hid : jsonEq hd.id c.id with
    | true =>
      rw [if_pos rfl]
      rcases List.mem_cons.mp hx with rfl | hxr
      · exact Or.inr hid
      · exact Or.inl (List.mem_cons_of_mem c hxr)
    | false =>
      rw [if_neg (by simp)]
      rcases List.mem_cons.mp hx with rfl | hxr
      · exact Or.inl (List.mem_cons_self _ _)
      · rcases ih x hxr with hmem | hid2
        · exact Or.inl (List.mem_cons_of_mem hd hmem)
        · exact Or.inr hid2

theorem upsertChat_length (store : List ChatRec) (c : ChatRec) :
    (upsertChat store c).length = store.length ∨
    (upsertChat store c).length = store.length + 1 := by
  induction store with
  | nil => exact Or.inr rfl
  | cons hd rest ih =>
    rw [upsertChat]
    cases hid : jsonEq hd.id c.id with
    | true => exact Or.inl (by simp)
    | false =>
      rcases ih with h | h
      · exact Or.inl (by simp [h])
      · exact Or.inr (by simp [h])

/-- **C9** (counterexample): the chat store is not append-only.  A POST
reusing the stored id `m1` is accepted and *replaces* the stored message:
the previous text `hello` is gone from the store after the call. -/
theorem chat_append_only_cex :
    postChat
      [{ id := Json.str "m1", role := "user", text := "hello", meta := none,
         teacherId := Json.str "t1", timestamp := Json.num 0 }]
      [("id", Json.str "m1"), ("text", Json.str "bye"),
       ("teacherId", Json.str "t1")] "f" 5 =
      (ChatPostOutcome.created
        { id := Json.str "m1", role := "user", text := "bye", meta := none,
          teacherId := Json.str "t1", timestamp := Json.num 5 },
       [{ id := Json.str "m1", role := "user", text := "bye", meta := none,
          teacherId := Json.str "t1", timestamp := Json.num 5 }]) ∧
    "bye" ≠ "hello" :=
  ⟨rfl, by decide⟩

/-- **C9** (amended): `POST /api/chats` is an upsert log keyed by id and
scoped by teacherId: a rejected call leaves the store unchanged; an accepted
call upserts the built document — appending it when its id is fresh —
and never deletes: every prior record either survives or is the (single)
record replaced by the matching id, and the store never shrinks. -/
theorem chat_store_upsert_amended (store : List ChatRec)
    (body : List (String × Json)) (freshId : String) (now : Int) :
    (∀ msg, (postChat store body freshId now).1 = .badRequest msg →
      (postChat store body freshId now).2 = store)
    ∧ (∀ c, (postChat store body freshId now).1 = .created c →
      (postChat store body freshId now).2 = upsertChat store c
      ∧ ((∀ x ∈ store, jsonEq x.id c.id = false) →
          (postChat store body freshId now).2 = store ++ [c])
      ∧ (∀ x ∈ store, x ∈ (postChat store body freshId now).2 ∨
          jsonEq x.id c.id = true)
      ∧ ((postChat store body freshId now).2.length = store.length ∨
         (postChat store body freshId now).2.length = store.length + 1)) := by
  cases htid : resolveTeacherId body with
  | none =>
    refine ⟨fun msg _ => by simp [postChat, htid], fun c hc => ?_⟩
    rw [show (postChat store body freshId now).1 =
      ChatPostOutcome.badRequest "teacherId required" by
        simp [postChat, htid]] at hc
    exact absurd hc (by intro h; exact ChatPostOutcome.noConfusion h)
  | some tid =>
    by_cases htxt : jsTrimEmpty (resolveChatText body) = true
    · refine ⟨fun msg _ => by simp [postChat, htid, htxt], fun c hc => ?_⟩
      rw [show (postChat store body freshId now).1 =
        ChatPostOutcome.badRequest "text/content required" by
          simp [postChat, htid, htxt]] at hc
      exact absurd hc (by intro h; exact ChatPostOutcome.noConfusion h)
    · have h1 : (postChat store body freshId now).1 =
          .created (chatDocOf body tid freshId now) := by
        simp [postChat, htid, htxt]
      have h2 : (postChat store body freshId now).2 =
          upsertChat store (chatDocOf body tid freshId now) := by
        simp [postChat, htid, htxt]
      refine ⟨fun msg hmsg => ?_, fun c hc => ?_⟩
      · rw [h1] at hmsg
        exact absurd hmsg (by intro h; exact ChatPostOutcome.noConfusion h)
      · rw [h1] at hc
        have hceq : chatDocOf body tid freshId now = c :=
          by injection hc
        subst hceq
        refine ⟨h2, fun hfresh => ?_, fun x hx => ?_, ?_⟩
        · rw [h2]; exact upsertChat_fresh store _ hfresh
        · rw [h2]; exact upsertChat_mem_or store _ x hx
        · rw [h2]; exact upsertChat_length store _
/-- Witness for the amended C9: an accepted call with a fresh id appends
the built document to an empty store. -/
theorem chat_store_upsert_amended_witness :
    (postChat [] [("text", Json.str "hi"), ("teacherId", Json.str "t")]
      "f" 0).2 =
      [] ++ [{ id := Json.str "msg_f", role := "user", text := "hi",
               meta := none, teacherId := Json.str "t",
               timestamp := Json.num 0 }] :=
  (((chat_store_upsert_amended []
      [("text", Json.str "hi"), ("teacherId", Json.str "t")] "f" 0).2
    { id := Json.str "msg_f", role := "user", text := "hi", meta := none,
      teacherId := Json.str "t", timestamp := Json.num 0 } rfl).2.1
    (fun x hx => absurd hx (List.not_mem_nil x)))
